import Mathlib

/-!
Shallow embedding of the Orthanc Server Index + Storage subsystem,
covering the admission pipeline (`ServerContext::Store`), the change
fan-out (`ServerContext::ChangeThread` / `SignalChange` / `Stop`) and the
query engine (`LookupResource`).  Every definition is translated from the
C++ source; the few pieces of the repository whose source files are not
available (the transactional `ServerIndex::Store`, `DicomInstanceHasher`,
`LookupIdentifierQuery`, `SetOfResources`, and the `IDatabaseWrapper` /
`StorageAccessor` implementations) are modelled from the specification
and are marked as such in their doc comments.
-/

namespace Orthanc

/-- `ResourceType` enumeration (Core/Enumerations.h): the four levels of
the DICOM hierarchy. -/
inductive ResourceType where
  | patient
  | study
  | series
  | instanceLevel
  deriving DecidableEq, Repr

/-- `FileContentType` enumeration: the content types of attachments used
by `ServerContext::Store` (raw DICOM and its JSON summary). -/
inductive FileContentType where
  | dicom
  | dicomAsJson
  deriving DecidableEq, Repr

/-- `StoreStatus` enumeration (Core/Enumerations.h). -/
inductive StoreStatus where
  | success
  | alreadyStored
  | failure
  | filteredOut
  deriving DecidableEq, Repr

/-- `CompressionType` enumeration: compression applied by the storage
accessor to the next written blobs. -/
inductive CompressionType where
  | noCompression
  | zlib
  deriving DecidableEq, Repr

/-- A DICOM tag: a (group, element) pair of 16-bit words
(Core/DicomFormat/DicomTag.h). -/
structure DicomTag where
  group : Nat
  element : Nat
  deriving DecidableEq, Repr

/-- One lowercase hexadecimal digit, used by `DicomTag::Format`. -/
def HexDigit (n : Nat) : Char :=
  if n < 10 then Char.ofNat (48 + n) else Char.ofNat (87 + n)

/-- Four lowercase hexadecimal digits (the `%04x` of `DicomTag::Format`). -/
def Hex4 (n : Nat) : String :=
  String.mk [HexDigit (n / 4096 % 16), HexDigit (n / 256 % 16),
             HexDigit (n / 16 % 16), HexDigit (n % 16)]

/-- `DicomTag::Format`: the `"gggg,eeee"` rendering of a tag, used as the
key of the DICOM-as-JSON summary. -/
def DicomTag.Format (t : DicomTag) : String :=
  Hex4 t.group ++ "," ++ Hex4 t.element

/-- A DICOM value as observed through the `DicomValue` interface used by
the query engine: `IsNull`, `IsBinary` and `GetContent`. -/
structure DicomValue where
  isNull : Bool
  isBinary : Bool
  content : String
  deriving DecidableEq, Repr

/-- A `DicomMap`: tag-to-value association as used by
`LookupResource.cpp` (`GetMainDicomTags` result and instance summaries). -/
abbrev DicomMap := List (DicomTag × DicomValue)

/-- `DicomMap::TestAndGetValue`: the value stored for a tag, if any. -/
def TestAndGetValue (tags : DicomMap) (tag : DicomTag) : Option DicomValue :=
  (tags.find? (fun p => p.1 = tag)).map (fun p => p.2)

mutual

/-- A tag node of the full-format DICOM-as-JSON document, as produced by
`LeafValueToJson` / `PrepareNode` (FromDcmtkBridge.cpp lines 985-1094):
its `Type` member is `"String"` (with a string `Value`), `"TooLong"`,
`"Null"`, or `"Sequence"` (with an array of sub-objects as `Value`).
The constructors mirror the four `Type` values. -/
inductive DicomJsonValue where
  | str (value : String)
  | tooLong
  | nullValue
  | sequence (items : DicomJsonArray)

/-- The array of sub-objects carried by a `"Sequence"` node. -/
inductive DicomJsonArray where
  | nil
  | cons (head : DicomJsonObject) (tail : DicomJsonArray)

/-- A full-format DICOM-as-JSON object: the ordered members, each with
its key (the formatted tag), its `Name` member and its node. -/
inductive DicomJsonObject where
  | nil
  | cons (key name : String) (value : DicomJsonValue) (tail : DicomJsonObject)

end

mutual

/-- The simplified value assigned by `Toolbox::SimplifyTags` for one tag
node: the string for `"String"`, JSON null for `"TooLong"` and
`"Null"`, and the recursively simplified children for `"Sequence"`. -/
inductive SimplifiedValue where
  | str (value : String)
  | nullValue
  | sequence (items : SimplifiedArray)

/-- An array of simplified sub-objects. -/
inductive SimplifiedArray where
  | nil
  | cons (head : SimplifiedObject) (tail : SimplifiedArray)

/-- A simplified tag object: the ordered `target[name] = ...`
assignments performed by `Toolbox::SimplifyTags`, as (name, value)
pairs. -/
inductive SimplifiedObject where
  | nil
  | cons (name : String) (value : SimplifiedValue) (tail : SimplifiedObject)

end

mutual

/-- The per-node case analysis of `Toolbox::SimplifyTags`
(src/OrthancServer/main.cpp lines 1715-1742): `"String"` keeps the
value, `"TooLong"` and `"Null"` become JSON null, `"Sequence"` recurses
into every element of the array. -/
def SimplifyTagsValue : DicomJsonValue → SimplifiedValue
  | DicomJsonValue.str s => SimplifiedValue.str s
  | DicomJsonValue.tooLong => SimplifiedValue.nullValue
  | DicomJsonValue.nullValue => SimplifiedValue.nullValue
  | DicomJsonValue.sequence items =>
      SimplifiedValue.sequence (SimplifyTagsArray items)

/-- The recursion of `Toolbox::SimplifyTags` over the elements of a
`"Sequence"` array (lines 1729-1735). -/
def SimplifyTagsArray : DicomJsonArray → SimplifiedArray
  | DicomJsonArray.nil => SimplifiedArray.nil
  | DicomJsonArray.cons obj tail =>
      SimplifiedArray.cons (SimplifyTags obj) (SimplifyTagsArray tail)

/-- `Toolbox::SimplifyTags` (src/OrthancServer/main.cpp lines
1701-1744): walk the members of the full-format document in order and
assign `target[name]` from each node's `Name` and simplified value. -/
def SimplifyTags : DicomJsonObject → SimplifiedObject
  | DicomJsonObject.nil => SimplifiedObject.nil
  | DicomJsonObject.cons _key name value tail =>
      SimplifiedObject.cons name (SimplifyTagsValue value) (SimplifyTags tail)

end

/-- `content.isMember(tag)` plus the member access `content[tag]` of the
unoptimized query pass: the (`Name`, node) of the member stored under
the formatted-tag key, if present. -/
def JsonGetMember : DicomJsonObject → String → Option (String × DicomJsonValue)
  | DicomJsonObject.nil, _ => Option.none
  | DicomJsonObject.cons key name value tail, tag =>
      if key = tag then Option.some (name, value) else JsonGetMember tail tag

/-- An `IFindConstraint`: it carries the tag it constrains and its
`Match` predicate on string values.  The concrete subclasses (exact
value, wildcard, range, list) are abstracted by the predicate field,
which the claims quantify over. -/
structure FindConstraint where
  tag : DicomTag
  matchValue : String → Bool

/-- The file-local `Match` helper of `LookupResource.cpp` (lines
191-206): a constraint matches a tag map only when the tag is present
with a non-null, non-binary value whose content satisfies the
constraint's own `Match`. -/
def Match (tags : DicomMap) (c : FindConstraint) : Bool :=
  match TestAndGetValue tags c.tag with
  | Option.none => false
  | Option.some v =>
      if v.isNull || v.isBinary then false
      else c.matchValue v.content

/-- A file descriptor returned by the storage accessor's `Write`
(`FileInfo`): the fresh uuid and the content type. -/
structure FileInfo where
  uuid : Nat
  contentType : FileContentType
  deriving DecidableEq, Repr

/-- The database and storage interface used by the query engine.  The
first four fields are the `IDatabaseWrapper` methods declared in
src/OrthancServer/DatabaseWrapper.h (`GetAllInternalIds`,
`GetMainDicomTags`, `GetChildrenInternalId`, `LookupAttachment`); their
SQL implementation is not under src/, so they are abstract functions the
claims quantify over.  `ReadJsonAttachment` stands for
`StorageAccessor::Read` followed by the JSON parse of the blob
(Core/FileStorage is not under src/): the full-format DICOM-as-JSON
document stored for the attachment. -/
structure QueryDatabase where
  GetAllInternalIds : ResourceType → List Nat
  GetMainDicomTags : Nat → DicomMap
  GetChildrenInternalId : Nat → List Nat
  LookupAttachment : Nat → FileContentType → Option FileInfo
  ReadJsonAttachment : FileInfo → DicomJsonObject

/-- `GetChildResourceType` (declared in Core/Enumerations.h; its
implementation is not under src/ and is determined by the DICOM
hierarchy of spec section 3): the level immediately below.  It is never
invoked at the Instance level (`Toolbox::FindOneChildInstance` returns
first). -/
def GetChildResourceType : ResourceType → ResourceType
  | ResourceType.patient => ResourceType.study
  | ResourceType.study => ResourceType.series
  | ResourceType.series => ResourceType.instanceLevel
  | ResourceType.instanceLevel => ResourceType.instanceLevel

/-- Depth of a level above Instance; the termination measure of the
descent loop in `Toolbox::FindOneChildInstance`. -/
def ResourceTypeDepth : ResourceType → Nat
  | ResourceType.patient => 3
  | ResourceType.study => 2
  | ResourceType.series => 1
  | ResourceType.instanceLevel => 0

/-- `Toolbox::FindOneChildInstance` (src/OrthancServer/main.cpp lines
1860-1883): descend from the resource towards the Instance level, always
through the first child, returning the reached instance's internal id,
or nothing as soon as a resource on the path has no children. -/
def FindOneChildInstance (db : QueryDatabase) (resource : Nat)
    (type : ResourceType) : Option Nat :=
  if type = ResourceType.instanceLevel then
    Option.some resource
  else
    match db.GetChildrenInternalId resource with
    | [] => Option.none
    | child :: _ => FindOneChildInstance db child (GetChildResourceType type)
termination_by ResourceTypeDepth type
decreasing_by cases type <;> simp_all [GetChildResourceType, ResourceTypeDepth]

/-- A `SetOfResources` value: `Option.none` denotes the whole set of
resources at the current level (the fresh set before any constraint),
`Option.some l` an explicit candidate list.  Modelled from the spec
(`SetOfResources.cpp` is not under src/): `Flatten` lists the candidates,
`Clear` resets to the whole level, `Intersect` filters. -/
abbrev SetOfResources := Option (List Nat)

/-- `SetOfResources::Flatten`: the explicit candidate list, reading the
whole level from the database when no constraint was applied yet. -/
def SetFlatten (db : QueryDatabase) (level : ResourceType) (s : SetOfResources) :
    List Nat :=
  match s with
  | Option.none => db.GetAllInternalIds level
  | Option.some l => l

/-- `SetOfResources::Clear`: reset to the unconstrained set. -/
def SetClear (_ : SetOfResources) : SetOfResources :=
  Option.none

/-- `SetOfResources::Intersect`: keep only the listed resources; on an
unconstrained set the candidate set becomes exactly the given list. -/
def SetIntersect (s : SetOfResources) (kept : List Nat) : SetOfResources :=
  match s with
  | Option.none => Option.some kept
  | Option.some l => Option.some (l.filter (fun r => kept.contains r))

/-- `SetOfResources::GoDown`: replace the candidates with the union of
their children (on the unconstrained set, the next level is again
unconstrained). -/
def SetGoDown (db : QueryDatabase) (s : SetOfResources) : SetOfResources :=
  match s with
  | Option.none => Option.none
  | Option.some l => Option.some (l.flatMap db.GetChildrenInternalId)

/-- A `LookupResource::Level`: the constraints registered at one level of
the hierarchy, split between indexed identifier tags and main DICOM
tags. -/
structure Level where
  levelType : ResourceType
  identifiersConstraints : List FindConstraint
  mainTagsConstraints : List FindConstraint

/-- `LookupResource::Level::Apply` (lines 209-268).  The first phase, the
indexed identifier pass built by the constraints' `Setup` on a
`LookupIdentifierQuery`, is abstracted by the `idQuery` function (its
source is not under src/); the second phase re-checks every identifier
and main-tag constraint against the fetched `MainDicomTag` values with
`Match`, exactly as the source does: flatten, clear, filter, intersect. -/
def Level.Apply (lv : Level) (idQuery : SetOfResources → SetOfResources)
    (db : QueryDatabase) (candidates : SetOfResources) : SetOfResources :=
  let afterQuery := idQuery candidates
  if lv.identifiersConstraints.isEmpty && lv.mainTagsConstraints.isEmpty then
    afterQuery
  else
    let source := SetFlatten db lv.levelType afterQuery
    let cleared := SetClear afterQuery
    let filtered := source.filter (fun candidate =>
      let tags := db.GetMainDicomTags candidate
      lv.identifiersConstraints.all (fun c => Match tags c) &&
        lv.mainTagsConstraints.all (fun c => Match tags c))
    SetIntersect cleared filtered

/-- A `LookupResource`: target level, per-level constraints, unoptimized
(non-indexed-tag) constraints, and the `maxResults_` cap. -/
structure LookupResource where
  levelType : ResourceType
  levels : ResourceType → Option Level
  unoptimizedConstraints : List FindConstraint
  maxResults : Nat

/-- The per-candidate matching of the unoptimized pass (lines 312-329):
every unoptimized constraint must find its formatted tag in the child
instance's JSON summary, with `content[tag]["Type"]` equal to
`"String"` (the `str` node) and a `Value` satisfying the constraint's
`Match`; a missing member or any other node type fails the
constraint. -/
def UnoptMatch (constraints : List FindConstraint)
    (content : DicomJsonObject) : Bool :=
  constraints.all (fun c =>
    match JsonGetMember content c.tag.Format with
    | Option.some (_, DicomJsonValue.str value) => c.matchValue value
    | _ => false)

/-- The candidate loop of `ApplyUnoptimizedConstraints` (lines 288-335):
walk the flattened candidates, stopping as soon as `maxResults_` matches
have been collected (when the cap is non-zero); a candidate is skipped
when `Toolbox::FindOneChildInstance` finds no child instance or the
instance has no DICOM-as-JSON attachment. -/
def UnoptLoop (lr : LookupResource) (db : QueryDatabase) :
    List Nat → List Nat → List Nat
  | [], filtered => filtered
  | candidate :: rest, filtered =>
      if lr.maxResults != 0 && decide (lr.maxResults ≤ filtered.length) then
        filtered
      else
        match FindOneChildInstance db candidate lr.levelType with
        | Option.none => UnoptLoop lr db rest filtered
        | Option.some instanceId =>
            match db.LookupAttachment instanceId FileContentType.dicomAsJson with
            | Option.none => UnoptLoop lr db rest filtered
            | Option.some attachment =>
                let content := db.ReadJsonAttachment attachment
                if UnoptMatch lr.unoptimizedConstraints content then
                  UnoptLoop lr db rest (filtered ++ [candidate])
                else
                  UnoptLoop lr db rest filtered

/-- `LookupResource::ApplyUnoptimizedConstraints` (lines 272-338):
nothing to do when no unoptimized constraint exists; otherwise flatten,
clear, run the capped loop and intersect with its result. -/
def LookupResource.ApplyUnoptimizedConstraints (lr : LookupResource)
    (db : QueryDatabase) (candidates : SetOfResources) : SetOfResources :=
  if lr.unoptimizedConstraints.isEmpty then
    candidates
  else
    let source := SetFlatten db lr.levelType candidates
    let cleared := SetClear candidates
    let filtered := UnoptLoop lr db source []
    SetIntersect cleared filtered

/-- `LookupResource::ApplyLevel` (lines 341-350): apply the level's
constraints when that level is part of the query. -/
def LookupResource.ApplyLevel (lr : LookupResource)
    (idQuery : ResourceType → SetOfResources → SetOfResources)
    (db : QueryDatabase) (candidates : SetOfResources) (level : ResourceType) :
    SetOfResources :=
  match lr.levels level with
  | Option.some lv => lv.Apply (idQuery level) db candidates
  | Option.none => candidates

/-- `LookupResource::Apply` (lines 353-389): walk the levels from Study
down to the target level, interleaving `GoDown`, then run the
unoptimized pass and flatten the final candidate set. -/
def LookupResource.Apply (lr : LookupResource)
    (idQuery : ResourceType → SetOfResources → SetOfResources)
    (db : QueryDatabase) : List Nat :=
  let start : SetOfResources := Option.none
  let candidates :=
    match lr.levelType with
    | ResourceType.patient =>
        lr.ApplyLevel idQuery db start ResourceType.patient
    | ResourceType.study =>
        lr.ApplyLevel idQuery db start ResourceType.study
    | ResourceType.series =>
        let c := lr.ApplyLevel idQuery db start ResourceType.study
        lr.ApplyLevel idQuery db (SetGoDown db c) ResourceType.series
    | ResourceType.instanceLevel =>
        let c := lr.ApplyLevel idQuery db start ResourceType.study
        let c := lr.ApplyLevel idQuery db (SetGoDown db c) ResourceType.series
        lr.ApplyLevel idQuery db (SetGoDown db c) ResourceType.instanceLevel
  SetFlatten db lr.levelType (lr.ApplyUnoptimizedConstraints db candidates)

/-- The outcome of a listener callback that returns no value: normal
return, a thrown `OrthancException`, or a thrown exception of any other
C++ type (only `OrthancException` is caught by the dispatch loops). -/
inductive CallbackOutcome where
  | ok
  | raiseOrthanc (msg : String)
  | raiseOther (msg : String)
  deriving DecidableEq, Repr

/-- The outcome of `IServerListener::FilterIncomingInstance`: a boolean
verdict or a thrown exception. -/
inductive FilterOutcome where
  | returns (accepted : Bool)
  | raiseOrthanc (msg : String)
  | raiseOther (msg : String)
  deriving DecidableEq, Repr

/-- A `ServerIndexChange` (ServerIndexChange.h): change type, resource
level and public id of the touched resource. -/
structure ServerIndexChange where
  changeType : Nat
  resourceType : ResourceType
  publicId : String
  deriving DecidableEq, Repr

/-- `ServerIndexChange::Clone`: a field-for-field copy. -/
def ServerIndexChange.Clone (c : ServerIndexChange) : ServerIndexChange :=
  ⟨c.changeType, c.resourceType, c.publicId⟩

/-- A `DicomInstanceToStore` as consumed by `ServerContext::Store`: its
tag summary, its full-format DICOM-as-JSON document, the raw DICOM
buffer, the remote AET, and the metadata map keyed by (level, metadata
type). -/
structure DicomInstanceToStore where
  summary : DicomMap
  json : DicomJsonObject
  buffer : String
  remoteAet : String
  metadata : List ((ResourceType × Nat) × String)

/-- A registered `ServerListener` (an `IServerListener` with the
description used in log messages).  The three callbacks are modelled as
pure functions of the arguments the C++ code passes them; their outcomes
distinguish normal return, `OrthancException` and other exceptions. -/
structure ServerListener where
  description : String
  FilterIncomingInstance : SimplifiedObject → String → FilterOutcome
  SignalStoredInstance :
    String → DicomInstanceToStore → SimplifiedObject → CallbackOutcome
  SignalChange : ServerIndexChange → CallbackOutcome

/-- The content of a stored blob: the raw DICOM buffer bytes, or the
styled-string serialization of a DICOM-as-JSON document (represented by
the document it prints, `toStyledString` being a pure injective
rendering). -/
inductive BlobContent where
  | bytes (data : String)
  | jsonText (doc : DicomJsonObject)

/-- The attachment store as seen through `StorageAccessor`: a fresh-uuid
counter, the stored blobs (uuid, content type, bytes), and the
compression selected for the next operations. -/
structure AttachmentStore where
  nextUuid : Nat
  blobs : List (Nat × FileContentType × BlobContent)
  currentCompression : CompressionType

/-- `StorageAccessor::SetCompressionForNextOperations`. -/
def AttachmentStore.SetCompressionForNextOperations (a : AttachmentStore)
    (c : CompressionType) : AttachmentStore :=
  { a with currentCompression := c }

/-- `StorageAccessor::Write`: persist the bytes under a fresh uuid and
return the descriptor. -/
def AttachmentStore.Write (a : AttachmentStore) (content : BlobContent)
    (t : FileContentType) : FileInfo × AttachmentStore :=
  (⟨a.nextUuid, t⟩,
   { a with nextUuid := a.nextUuid + 1,
            blobs := a.blobs ++ [(a.nextUuid, t, content)] })

/-- `StorageAccessor::Remove`: delete the blob stored under the uuid and
content type (idempotent). -/
def AttachmentStore.Remove (a : AttachmentStore) (uuid : Nat)
    (t : FileContentType) : AttachmentStore :=
  { a with blobs :=
      a.blobs.filter (fun b => !(decide (b.1 = uuid) && decide (b.2.1 = t))) }

/-- Well-formedness of the attachment store: every stored uuid was issued
by the counter, so freshly issued uuids never collide with stored
blobs. -/
def AttachmentStore.Wf (a : AttachmentStore) : Prop :=
  ∀ b ∈ a.blobs, b.1 < a.nextUuid

/-- The index database, reduced to what the admission-pipeline claims
observe: the set of stored instances, each with its public id and its
registered attachments. -/
structure ServerIndex where
  instances : List (String × List FileInfo)

/-- Per-instance metadata returned by the index transaction
(`MetadataType` to value). -/
abbrev InstanceMetadata := List (Nat × String)

/-- The metadata map carried by a `DicomInstanceToStore`. -/
abbrev ResourceMetadata := List ((ResourceType × Nat) × String)

/-- The type of the transactional `ServerIndex::Store` entry point as
invoked by `ServerContext::Store`: it receives the index state, the tag
summary, the two attachments, the remote AET and the caller's metadata,
and yields the instance metadata, the store status and the new index
state.  `ServerContext::Store` is proved correct for every such
function. -/
abbrev IndexStoreFn := ServerIndex → DicomMap → List FileInfo → String →
  ResourceMetadata → InstanceMetadata × StoreStatus × ServerIndex

/-- Modelled from the spec: `DicomInstanceHasher` is not under src/; it
computes the instance public id deterministically from the tag summary
(SHA-1 over the chain of DICOM UIDs, spec section 4.6 step 1).  It is
kept abstract: the claims hold for every such function. -/
structure Env where
  hashInstance : DicomMap → String

/-- Modelled from the spec: the transactional `ServerIndex::Store`
(`ServerIndex.cpp` is not under src/).  Per spec section 4.6 step 5,
if the instance public id (recomputed from the tag summary by the
hasher) already exists, the transaction is rolled back and
`AlreadyStored` is returned with the index unchanged; otherwise the
instance and its attachments are recorded and `Success` is returned. -/
def ServerIndex.store (env : Env) (idx : ServerIndex) (summary : DicomMap)
    (attachments : List FileInfo) (_remoteAet : String)
    (_metadata : ResourceMetadata) :
    InstanceMetadata × StoreStatus × ServerIndex :=
  let publicId := env.hashInstance summary
  if (idx.instances.map Prod.fst).contains publicId then
    ([], StoreStatus.alreadyStored, idx)
  else
    ([], StoreStatus.success, ⟨idx.instances ++ [(publicId, attachments)]⟩)

/-- The `ServerContext` state touched by `Store`: the storage accessor,
the index, the registered listeners and the compression flag. -/
structure ServerContextState where
  accessor : AttachmentStore
  index : ServerIndex
  listeners : List ServerListener
  compressionEnabled : Bool

/-- The filter pass of `ServerContext::Store` (lines 184-207): invoke
each listener's `FilterIncomingInstance` in registration order; the
first rejection stops the pass with `accepted = false`; an exception
(of either kind) escapes the pass — `OrthancException` is logged and
rethrown, anything else propagates uncaught. -/
def runFilters (listeners : List ServerListener)
    (simplified : SimplifiedObject) (remoteAet : String) :
    Except String Bool :=
  match listeners with
  | [] => Except.ok true
  | l :: rest =>
      match l.FilterIncomingInstance simplified remoteAet with
      | FilterOutcome.returns true => runFilters rest simplified remoteAet
      | FilterOutcome.returns false => Except.ok false
      | FilterOutcome.raiseOrthanc m => Except.error m
      | FilterOutcome.raiseOther m => Except.error m

/-- The notification pass of `ServerContext::Store` (lines 271-288):
invoke each listener's `SignalStoredInstance` in registration order,
recording each invocation as (listener description, public id); a thrown
`OrthancException` is logged and swallowed, any other exception
propagates. -/
def notifyStored (listeners : List ServerListener) (publicId : String)
    (dicom : DicomInstanceToStore) (simplified : SimplifiedObject) :
    Except String (List (String × String)) :=
  match listeners with
  | [] => Except.ok []
  | l :: rest =>
      match l.SignalStoredInstance publicId dicom simplified with
      | CallbackOutcome.ok =>
          (notifyStored rest publicId dicom simplified).map
            (fun log => (l.description, publicId) :: log)
      | CallbackOutcome.raiseOrthanc _ =>
          (notifyStored rest publicId dicom simplified).map
            (fun log => (l.description, publicId) :: log)
      | CallbackOutcome.raiseOther m => Except.error m

/-- The result of a completed `ServerContext::Store` call: the returned
status, the public id written to the out-parameter, the new context
state, the `SignalStoredInstance` invocations, and the instance metadata
left in the `DicomInstanceToStore`. -/
structure StoreResult where
  status : StoreStatus
  publicId : String
  state : ServerContextState
  storedEvents : List (String × String)
  metadata : ResourceMetadata

/-- The compression selected by `ServerContext::Store` (lines 215-222)
for the next storage operations, from the `compressionEnabled_` flag. -/
def compressionFor (enabled : Bool) : CompressionType :=
  if enabled then CompressionType.zlib else CompressionType.noCompression

/-- The accepted path of `ServerContext::Store` (lines 215-290): select
the compression, write the two blobs, run the index transaction, copy
the instance metadata, roll the blobs back on any non-Success status,
and notify the listeners on Success or AlreadyStored. -/
def storeAccepted (indexStore : IndexStoreFn) (st : ServerContextState)
    (dicom : DicomInstanceToStore) (resultPublicId : String)
    (simplified : SimplifiedObject) :
    Except String StoreResult :=
  let acc0 := st.accessor.SetCompressionForNextOperations
    (compressionFor st.compressionEnabled)
  let w1 := acc0.Write (BlobContent.bytes dicom.buffer) FileContentType.dicom
  let dicomInfo := w1.1
  let w2 := w1.2.Write (BlobContent.jsonText dicom.json)
    FileContentType.dicomAsJson
  let jsonInfo := w2.1
  let attachments := [dicomInfo, jsonInfo]
  let ixr := indexStore st.index dicom.summary attachments
               dicom.remoteAet dicom.metadata
  let status := ixr.2.1
  let newMetadata : ResourceMetadata := ixr.1.map
    (fun p => ((ResourceType.instanceLevel, p.1), p.2))
  let acc2 :=
    if status ≠ StoreStatus.success then
      (w2.2.Remove dicomInfo.uuid FileContentType.dicom).Remove
        jsonInfo.uuid FileContentType.dicomAsJson
    else w2.2
  let st2 : ServerContextState :=
    { st with accessor := acc2, index := ixr.2.2 }
  if status = StoreStatus.success ∨ status = StoreStatus.alreadyStored then
    match notifyStored st.listeners resultPublicId dicom simplified with
    | Except.error m => Except.error m
    | Except.ok log =>
        Except.ok ⟨status, resultPublicId, st2, log, newMetadata⟩
  else
    Except.ok ⟨status, resultPublicId, st2, [], newMetadata⟩

/-- `ServerContext::Store` (lines 173-301): hash the summary into the
public id, simplify the tags with `Toolbox::SimplifyTags`, run the
admission filters, and — unless a
filter rejected the instance — continue with the blob writes, the index
transaction and the notifications of `storeAccepted`.  The `Except`
error carries an exception escaping `Store`. -/
def ServerContext.Store (env : Env) (indexStore : IndexStoreFn)
    (st : ServerContextState) (dicom : DicomInstanceToStore) :
    Except String StoreResult :=
  let resultPublicId := env.hashInstance dicom.summary
  let simplified := SimplifyTags dicom.json
  match runFilters st.listeners simplified dicom.remoteAet with
  | Except.error m => Except.error m
  | Except.ok accepted =>
    if accepted = false then
      Except.ok ⟨StoreStatus.filteredOut, resultPublicId, st, [], dicom.metadata⟩
    else
      storeAccepted indexStore st dicom resultPublicId simplified

/-- The listener dispatch of one dequeued change in
`ServerContext::ChangeThread` (lines 78-93): invoke each listener's
`SignalChange` in registration order under the listener mutex; a thrown
`OrthancException` is logged and swallowed, while any other exception
escapes the loop (the `catch` clause only matches `OrthancException`).
Returns the invoked listeners' descriptions in order, and the escaping
exception if one occurred. -/
def dispatchChange (listeners : List ServerListener)
    (change : ServerIndexChange) : List String × Option String :=
  match listeners with
  | [] => ([], Option.none)
  | l :: rest =>
      match l.SignalChange change with
      | CallbackOutcome.ok =>
          let r := dispatchChange rest change
          (l.description :: r.1, r.2)
      | CallbackOutcome.raiseOrthanc _ =>
          let r := dispatchChange rest change
          (l.description :: r.1, r.2)
      | CallbackOutcome.raiseOther m => ([l.description], Option.some m)

/-- The shared state of the change fan-out: the pending-change queue, the
listener list, the `done_` flag, whether the worker thread has exited,
and the log of deliveries (listener description, change) in delivery
order. -/
structure ChangeSystemState where
  pendingChanges : List ServerIndexChange
  listeners : List ServerListener
  done : Bool
  workerExited : Bool
  delivered : List (String × ServerIndexChange)

/-- The atomic actions interleaved over the change fan-out state: one
iteration of the worker loop, a producer's `SignalChange`, and the two
mutations performed by `ServerContext::Stop` (clearing the listener list,
then setting `done_`; the final `join` is the passive wait for
`workerExited`). -/
inductive SysLabel where
  | workerPoll
  | signalChange (c : ServerIndexChange)
  | stopClearListeners
  | stopSetDone

/-- One atomic step of the change fan-out, from `ChangeThread` (lines
70-96), `SignalChange` (lines 436-439) and `Stop` (lines 131-153):

* `workerPoll` — one iteration of the worker loop: exit when `done_` is
  set; otherwise dequeue with a 100 ms timeout (a timeout leaves the
  state unchanged) and dispatch the change to the current listeners; an
  exception escaping the dispatch (any non-`OrthancException`) kills the
  worker thread.
* `signalChange c` — enqueue a clone of the event and return.
* `stopClearListeners` / `stopSetDone` — the two mutations of `Stop`, in
  the order the source performs them. -/
def sysStep (s : ChangeSystemState) : SysLabel → ChangeSystemState
  | SysLabel.workerPoll =>
      if s.workerExited then s
      else if s.done then { s with workerExited := true }
      else
        match s.pendingChanges with
        | [] => s
        | c :: rest =>
            let d := dispatchChange s.listeners c
            { s with pendingChanges := rest,
                     delivered := s.delivered ++ d.1.map (fun n => (n, c)),
                     workerExited := s.workerExited || d.2.isSome }
  | SysLabel.signalChange c =>
      { s with pendingChanges := s.pendingChanges ++ [c.Clone] }
  | SysLabel.stopClearListeners => { s with listeners := [] }
  | SysLabel.stopSetDone => { s with done := true }

/-- Run a sequence of atomic steps. -/
def sysRun (s : ChangeSystemState) (labels : List SysLabel) : ChangeSystemState :=
  labels.foldl sysStep s

/-- The mutations performed by `ServerContext::Stop` (lines 131-153), in
source order: clear the listener list, then set `done_` (the join that
follows waits for the worker to observe `done_` and exit). -/
def stopLabels : List SysLabel :=
  [SysLabel.stopClearListeners, SysLabel.stopSetDone]

/-- Whether a callback outcome escapes the dispatch loops: only a thrown
non-`OrthancException` does (the `catch` clauses match `OrthancException`
alone). -/
def CallbackOutcome.escapes : CallbackOutcome → Bool
  | CallbackOutcome.raiseOther _ => true
  | _ => false

/-- Whether a filter outcome is a normal boolean return (no exception). -/
def FilterOutcome.isReturn : FilterOutcome → Bool
  | FilterOutcome.returns _ => true
  | _ => false

/-! Concrete fixtures used by the witnesses and counterexamples below. -/

/-- A concrete environment: a constant hasher. -/
def envW : Env := ⟨fun _ => "id0"⟩

/-- A concrete incoming instance with an empty JSON document. -/
def dicomW : DicomInstanceToStore :=
  ⟨[], DicomJsonObject.nil, "buf", "aet", []⟩

/-- An empty server-context state: empty storage, empty index, no
listeners, compression disabled. -/
def stW : ServerContextState :=
  ⟨⟨0, [], CompressionType.noCompression⟩, ⟨[]⟩, [], false⟩

/-- A listener whose callbacks all succeed. -/
def okChangeListener : ServerListener :=
  ⟨"Lua", fun _ _ => FilterOutcome.returns true,
   fun _ _ _ => CallbackOutcome.ok, fun _ => CallbackOutcome.ok⟩

/-- A listener whose `SignalChange` throws a non-`OrthancException`. -/
def badChangeListener : ServerListener :=
  ⟨"plugin", fun _ _ => FilterOutcome.returns true,
   fun _ _ _ => CallbackOutcome.ok,
   fun _ => CallbackOutcome.raiseOther "boom"⟩

/-- A listener whose `SignalChange` throws an `OrthancException`. -/
def orthancChangeListener : ServerListener :=
  ⟨"Lua2", fun _ _ => FilterOutcome.returns true,
   fun _ _ _ => CallbackOutcome.ok,
   fun _ => CallbackOutcome.raiseOrthanc "err"⟩

/-- A listener whose admission filter rejects every instance. -/
def rejectListener : ServerListener :=
  ⟨"Lua", fun _ _ => FilterOutcome.returns false,
   fun _ _ _ => CallbackOutcome.ok, fun _ => CallbackOutcome.ok⟩

/-- A listener whose `SignalStoredInstance` throws an
`OrthancException`. -/
def orthancStoredListener : ServerListener :=
  ⟨"A", fun _ _ => FilterOutcome.returns true,
   fun _ _ _ => CallbackOutcome.raiseOrthanc "e",
   fun _ => CallbackOutcome.ok⟩

/-- A concrete change event. -/
def sampleChange : ServerIndexChange := ⟨1, ResourceType.patient, "res"⟩

/-- A change fan-out state with one pending event and one healthy
listener, before `Stop` is called. -/
def stopScenarioStart : ChangeSystemState :=
  ⟨[sampleChange], [okChangeListener], false, false, []⟩

/-- An index transaction that always fails. -/
def failingIndexStore : IndexStoreFn :=
  fun idx _ _ _ _ => ([], StoreStatus.failure, idx)

/-- The result of storing `dicomW` into the empty context through the
always-failing index transaction. -/
def storeFailResult : StoreResult :=
  match ServerContext.Store envW failingIndexStore stW dicomW with
  | Except.ok r => r
  | Except.error _ => ⟨StoreStatus.failure, "", stW, [], []⟩

/-- The empty state with a rejecting admission filter registered. -/
def st3W : ServerContextState := { stW with listeners := [rejectListener] }

/-- The empty state with two listeners: one whose on-stored callback
throws an `OrthancException`, one healthy. -/
def st9W : ServerContextState :=
  { stW with listeners := [orthancStoredListener, okChangeListener] }

/-- The result of storing `dicomW` into `st9W` through the spec-modelled
index transaction. -/
def store9Result : StoreResult :=
  match ServerContext.Store envW (ServerIndex.store envW) st9W dicomW with
  | Except.ok r => r
  | Except.error _ => ⟨StoreStatus.failure, "", st9W, [], []⟩

/-- The result of the first store of `dicomW` into the empty context,
through the spec-modelled index transaction. -/
def storeFirstResult : StoreResult :=
  match ServerContext.Store envW (ServerIndex.store envW) stW dicomW with
  | Except.ok r => r
  | Except.error _ => ⟨StoreStatus.failure, "", stW, [], []⟩

/-- The result of storing `dicomW` a second time, into the state left by
the first store. -/
def storeSecondResult : StoreResult :=
  match ServerContext.Store envW (ServerIndex.store envW)
      storeFirstResult.state dicomW with
  | Except.ok r => r
  | Except.error _ => ⟨StoreStatus.failure, "", stW, [], []⟩

/-- A constraint on PatientName (0010,0010) that matches every string
value. -/
def cW : FindConstraint := ⟨⟨16, 16⟩, fun _ => true⟩

/-- A DICOM-as-JSON instance summary carrying a string PatientName. -/
def sampleJsonContent : DicomJsonObject :=
  DicomJsonObject.cons "0010,0010" "PatientName" (DicomJsonValue.str "A")
    DicomJsonObject.nil

/-- A query database with three instances whose JSON summaries all carry
a string PatientName. -/
def dbW : QueryDatabase :=
  ⟨fun _ => [10, 11, 12], fun _ => [], fun _ => [],
   fun _ _ => Option.some ⟨0, FileContentType.dicomAsJson⟩,
   fun _ => sampleJsonContent⟩

/-- An instance-level lookup with one unoptimized constraint and
`maxResults = 1`. -/
def lrW : LookupResource :=
  ⟨ResourceType.instanceLevel, fun _ => Option.none, [cW], 1⟩

/-- A level with one main-tag constraint on PatientName. -/
def lvW : Level := ⟨ResourceType.patient, [], [cW]⟩

/-- A query database where resource 1 carries a PatientName main tag and
resource 2 carries none. -/
def db7W : QueryDatabase :=
  ⟨fun _ => [1, 2],
   fun r => if r = 1 then [(⟨16, 16⟩, ⟨false, false, "A"⟩)] else [],
   fun _ => [], fun _ _ => Option.none, fun _ => DicomJsonObject.nil⟩

/-! ## Theorems

Helper lemmas first, then one theorem per claim (with its witness or
counterexample where required). -/

/-- The capped candidate loop of the unoptimized pass never grows its
accumulator beyond `maxResults_` when the cap is positive. -/
theorem unoptLoop_length_le (lr : LookupResource) (db : QueryDatabase)
    (source : List Nat) (acc : List Nat) (hcap : 0 < lr.maxResults)
    (hacc : acc.length ≤ lr.maxResults) :
    (UnoptLoop lr db source acc).length ≤ lr.maxResults := by
  induction source generalizing acc with
  | nil => simpa [UnoptLoop] using hacc
  | cons c rest ih =>
      rw [UnoptLoop]
      by_cases hstop :
          (lr.maxResults != 0 && decide (lr.maxResults ≤ acc.length)) = true
      · rw [if_pos hstop]
        exact hacc
      · rw [if_neg hstop]
        have hne0 : (lr.maxResults != 0) = true := by
          simp only [bne_iff_ne, ne_eq]
          omega
        have hlt : acc.length < lr.maxResults := by
          by_contra hge
          push_neg at hge
          exact hstop (by simp [hne0, hge])
        cases hfind : FindOneChildInstance db c lr.levelType with
        | none => exact ih acc hacc
        | some instanceId =>
            show (match db.LookupAttachment instanceId
                    FileContentType.dicomAsJson with
                  | Option.none => UnoptLoop lr db rest acc
                  | Option.some attachment =>
                      let content := db.ReadJsonAttachment attachment
                      if UnoptMatch lr.unoptimizedConstraints content then
                        UnoptLoop lr db rest (acc ++ [c])
                      else
                        UnoptLoop lr db rest acc).length ≤ lr.maxResults
            cases hatt : db.LookupAttachment instanceId
                FileContentType.dicomAsJson with
            | none => exact ih acc hacc
            | some attachment =>
                show (if UnoptMatch lr.unoptimizedConstraints
                        (db.ReadJsonAttachment attachment) = true then
                        UnoptLoop lr db rest (acc ++ [c])
                      else UnoptLoop lr db rest acc).length ≤ lr.maxResults
                by_cases hm : UnoptMatch lr.unoptimizedConstraints
                    (db.ReadJsonAttachment attachment) = true
                · rw [if_pos hm]
                  refine ih (acc ++ [c]) ?_
                  simpa using hlt
                · rw [if_neg hm]
                  exact ih acc hacc

/-- The flattened result of `ApplyUnoptimizedConstraints` is the list
built by the capped loop, hence bounded by `maxResults_`. -/
theorem applyUnopt_flatten_length (lr : LookupResource) (db : QueryDatabase)
    (cands : SetOfResources) (hne : lr.unoptimizedConstraints ≠ [])
    (hcap : 0 < lr.maxResults) :
    (SetFlatten db lr.levelType
      (lr.ApplyUnoptimizedConstraints db cands)).length ≤ lr.maxResults := by
  unfold LookupResource.ApplyUnoptimizedConstraints
  rw [if_neg (by simpa [List.isEmpty_iff] using hne)]
  simp only [SetIntersect, SetClear, SetFlatten]
  exact unoptLoop_length_le lr db _ [] hcap (by simp)

/-- C6: when the query has at least one unoptimized (non-indexed-tag)
constraint and a positive `maxResults_` cap, the filtering pass of
`LookupResource::ApplyUnoptimizedConstraints` stops collecting matches
at the cap, so the result list of `LookupResource::Apply` holds at most
`maxResults_` resources. -/
theorem lookup_apply_respects_max_results (lr : LookupResource)
    (idQuery : ResourceType → SetOfResources → SetOfResources)
    (db : QueryDatabase) (hne : lr.unoptimizedConstraints ≠ [])
    (hcap : 0 < lr.maxResults) :
    (lr.Apply idQuery db).length ≤ lr.maxResults := by
  unfold LookupResource.Apply
  exact applyUnopt_flatten_length lr db _ hne hcap

/-- Witness for C6: a patient query with one unoptimized constraint,
three all-matching candidates and `maxResults = 1` returns at most one
resource. -/
theorem lookup_apply_respects_max_results_witness :
    (lrW.Apply (fun _ s => s) dbW).length ≤ lrW.maxResults :=
  lookup_apply_respects_max_results lrW (fun _ s => s) dbW
    (List.cons_ne_nil _ _) (by decide)

/-- C7: after `LookupResource::Level::Apply` at a level with at least one
registered constraint, every surviving candidate's fetched MainDicomTag
values satisfy `Match` for all identifier constraints and all main-tag
constraints of that level — the identifier constraints included, because
the second phase re-checks them against the fetched values. -/
theorem level_apply_enforces_constraints (lv : Level)
    (idQuery : SetOfResources → SetOfResources) (db : QueryDatabase)
    (candidates : SetOfResources) (r : Nat)
    (hne : lv.identifiersConstraints ≠ [] ∨ lv.mainTagsConstraints ≠ [])
    (hmem : r ∈ SetFlatten db lv.levelType (lv.Apply idQuery db candidates)) :
    (∀ c ∈ lv.identifiersConstraints, Match (db.GetMainDicomTags r) c = true) ∧
    (∀ c ∈ lv.mainTagsConstraints, Match (db.GetMainDicomTags r) c = true) := by
  have hne' :
      (lv.identifiersConstraints.isEmpty && lv.mainTagsConstraints.isEmpty)
        ≠ true := by
    intro hcontra
    rw [Bool.and_eq_true, List.isEmpty_iff, List.isEmpty_iff] at hcontra
    rcases hne with h | h
    · exact h hcontra.1
    · exact h hcontra.2
  unfold Level.Apply at hmem
  rw [if_neg hne'] at hmem
  simp only [SetIntersect, SetClear, SetFlatten] at hmem
  obtain ⟨-, hpred⟩ := List.mem_filter.mp hmem
  rw [Bool.and_eq_true, List.all_eq_true, List.all_eq_true] at hpred
  exact hpred

/-- Witness for C7: in `db7W`, resource 1 survives the main-tag pass and
indeed matches the PatientName constraint. -/
theorem level_apply_enforces_constraints_witness :
    Match (db7W.GetMainDicomTags 1) cW = true :=
  (level_apply_enforces_constraints lvW id db7W Option.none 1
    (Or.inr (List.cons_ne_nil _ _)) (by decide)).2 cW (by simp [lvW])

/-- C10: the `Match` helper of `LookupResource.cpp` returns false when
the constrained tag is absent from the stored values, or present with a
null or binary value, so such resources are filtered out rather than
passed through unchecked. -/
theorem match_absent_null_binary_false (tags : DicomMap) (c : FindConstraint)
    (h : TestAndGetValue tags c.tag = Option.none ∨
         ∃ v, TestAndGetValue tags c.tag = Option.some v ∧
           (v.isNull = true ∨ v.isBinary = true)) :
    Match tags c = false := by
  unfold Match
  rcases h with h | ⟨v, hv, hnb⟩
  · rw [h]
  · rw [hv]
    rcases hnb with h1 | h1 <;> simp [h1]

/-- Witness for C10: a null PatientName value never matches, even under
a constraint accepting every string. -/
theorem match_absent_null_binary_false_witness :
    Match [(⟨16, 16⟩, ⟨true, false, "x"⟩)] cW = false :=
  match_absent_null_binary_false _ _
    (Or.inr ⟨⟨true, false, "x"⟩, rfl, Or.inl rfl⟩)

/-- Counterexample for C4 as stated: a listener that throws a
non-`OrthancException` from `SignalChange` is not swallowed — the
dispatch loop's `catch` clause only matches `OrthancException` — so the
subsequent listener never receives the event: the invoked-listener list
differs from the full registration list. -/
theorem change_dispatch_swallow_counterexample :
    (dispatchChange [badChangeListener, okChangeListener] sampleChange).1 ≠
      List.map ServerListener.description [badChangeListener, okChangeListener] := by
  decide

/-- C4 (amended): for every change event dispatched by the fan-out
worker, the listeners are invoked in registration order, and when no
listener throws anything other than an `OrthancException`, a thrown
`OrthancException` is logged and swallowed so that every listener in the
list receives the event — the invoked list is exactly the registration
list, in order, and no exception escapes. -/
theorem change_dispatch_orthanc_swallowed (listeners : List ServerListener)
    (change : ServerIndexChange)
    (h : ∀ l ∈ listeners, (l.SignalChange change).escapes = false) :
    (dispatchChange listeners change).1 =
      listeners.map ServerListener.description ∧
    (dispatchChange listeners change).2 = Option.none := by
  induction listeners with
  | nil => exact ⟨rfl, rfl⟩
  | cons l rest ih =>
      have hl := h l (List.mem_cons_self l rest)
      have hrest := ih (fun l' hl' => h l' (List.mem_cons_of_mem l hl'))
      cases hout : l.SignalChange change with
      | ok => simp [dispatchChange, hout, hrest.1, hrest.2]
      | raiseOrthanc m => simp [dispatchChange, hout, hrest.1, hrest.2]
      | raiseOther m =>
          rw [hout] at hl
          exact absurd hl (by simp [CallbackOutcome.escapes])

/-- Witness for C4 (amended): with a listener throwing an
`OrthancException` followed by a healthy listener, both are invoked in
order and nothing escapes. -/
theorem change_dispatch_orthanc_swallowed_witness :
    (dispatchChange [orthancChangeListener, okChangeListener] sampleChange).1 =
      List.map ServerListener.description [orthancChangeListener, okChangeListener] ∧
    (dispatchChange [orthancChangeListener, okChangeListener] sampleChange).2 =
      Option.none :=
  change_dispatch_orthanc_swallowed [orthancChangeListener, okChangeListener]
    sampleChange (by decide)

/-- Once the listener list is empty, no sequence of fan-out steps ever
delivers anything (and the list stays empty: no step re-registers
listeners). -/
theorem sysRun_no_listeners (s : ChangeSystemState) (h : s.listeners = [])
    (labels : List SysLabel) :
    (sysRun s labels).delivered = s.delivered ∧
      (sysRun s labels).listeners = [] := by
  induction labels generalizing s with
  | nil => exact ⟨rfl, h⟩
  | cons lab rest ih =>
      have hstep : (sysStep s lab).delivered = s.delivered ∧
          (sysStep s lab).listeners = [] := by
        cases lab with
        | workerPoll =>
            rw [sysStep]
            by_cases h1 : s.workerExited
            · rw [if_pos h1]
              exact ⟨rfl, h⟩
            · rw [if_neg h1]
              by_cases h2 : s.done
              · rw [if_pos h2]
                exact ⟨rfl, h⟩
              · rw [if_neg h2]
                cases hq : s.pendingChanges with
                | nil => exact ⟨rfl, h⟩
                | cons c rest' => exact ⟨by simp [h, dispatchChange], h⟩
        | signalChange c => exact ⟨rfl, h⟩
        | stopClearListeners => exact ⟨rfl, rfl⟩
        | stopSetDone => exact ⟨rfl, h⟩
      have := ih (sysStep s lab) hstep.2
      exact ⟨by rw [sysRun, List.foldl_cons, ← sysRun, this.1, hstep.1], by
        rw [sysRun, List.foldl_cons, ← sysRun, this.2]⟩

/-- Counterexample for C5 as stated: with one event pending and one
healthy listener registered, `Stop` (clear listeners, set `done_`) can
complete — the worker observes `done_` and exits, letting the join
return — while the event enqueued before the call is still sitting in
the queue, delivered to nobody. -/
theorem stop_does_not_drain_counterexample :
    (sysRun stopScenarioStart (stopLabels ++ [SysLabel.workerPoll])).workerExited
        = true ∧
    (sysRun stopScenarioStart (stopLabels ++ [SysLabel.workerPoll])).pendingChanges
        = [sampleChange] ∧
    (sysRun stopScenarioStart (stopLabels ++ [SysLabel.workerPoll])).delivered
        = [] := by
  exact ⟨rfl, rfl, rfl⟩

/-- C5 (amended): `ServerContext::Stop` first clears the listener list,
then sets the `done_` flag, and then joins the worker; it does not drain
the pending-change queue — the queue is left untouched — and from the
moment the listener list is cleared no listener receives any further
event, whatever the worker does afterwards. -/
theorem serverContext_stop_behavior (s : ChangeSystemState)
    (labels : List SysLabel) :
    (sysRun s stopLabels).listeners = [] ∧
    (sysRun s stopLabels).done = true ∧
    (sysRun s stopLabels).pendingChanges = s.pendingChanges ∧
    (sysRun s stopLabels).delivered = s.delivered ∧
    (sysRun (sysRun s stopLabels) labels).delivered = s.delivered := by
  refine ⟨rfl, rfl, rfl, rfl, ?_⟩
  exact (sysRun_no_listeners (sysRun s stopLabels) rfl labels).1

/-- C8: `ServerContext::SignalChange` only enqueues a clone of the event
and returns — it changes nothing but the pending queue, and in
particular delivers nothing to listeners.  Of all the atomic fan-out
actions, only the worker's own loop iteration (`workerPoll`) ever
appends to the delivery log, so listener `SignalChange` callbacks run
solely on the dedicated worker thread, never on the committing
caller. -/
theorem signal_change_only_enqueues (s : ChangeSystemState)
    (c : ServerIndexChange) :
    (sysStep s (SysLabel.signalChange c)).pendingChanges
        = s.pendingChanges ++ [c.Clone] ∧
    (sysStep s (SysLabel.signalChange c)).delivered = s.delivered ∧
    (sysStep s (SysLabel.signalChange c)).listeners = s.listeners ∧
    (sysStep s (SysLabel.signalChange c)).done = s.done ∧
    (sysStep s (SysLabel.signalChange c)).workerExited = s.workerExited ∧
    (sysStep s SysLabel.stopClearListeners).delivered = s.delivered ∧
    (sysStep s SysLabel.stopSetDone).delivered = s.delivered :=
  ⟨rfl, rfl, rfl, rfl, rfl, rfl, rfl⟩

/-- Removing a uuid never held in the store leaves the blobs unchanged. -/
theorem filter_fresh_blobs (l : List (Nat × FileContentType × BlobContent))
    (n : Nat) (t : FileContentType) (h : ∀ b ∈ l, b.1 < n) :
    l.filter (fun b => !(decide (b.1 = n) && decide (b.2.1 = t))) = l := by
  apply List.filter_eq_self.mpr
  intro b hb
  have hlt := h b hb
  have hne : b.1 ≠ n := by omega
  simp [hne]

/-- Writing the two blobs of a store and then removing both restores the
attachment store's contents, provided every previously stored uuid was
issued by the counter. -/
theorem write_two_remove_two (a : AttachmentStore) (hwf : a.Wf)
    (c1 c2 : BlobContent) :
    ((((a.Write c1 FileContentType.dicom).2.Write c2
          FileContentType.dicomAsJson).2.Remove
        (a.Write c1 FileContentType.dicom).1.uuid
        FileContentType.dicom).Remove
      ((a.Write c1 FileContentType.dicom).2.Write c2
          FileContentType.dicomAsJson).1.uuid
      FileContentType.dicomAsJson).blobs = a.blobs := by
  have h1 : ∀ b ∈ a.blobs, b.1 < a.nextUuid := hwf
  have hne : a.nextUuid + 1 ≠ a.nextUuid := by omega
  simp only [AttachmentStore.Write, AttachmentStore.Remove, List.filter_append]
  rw [filter_fresh_blobs a.blobs a.nextUuid FileContentType.dicom h1]
  simp only [List.filter_cons, List.filter_nil]
  simp [hne]
  intro u t s hmem
  have hu : u < a.nextUuid := h1 (u, t, s) hmem
  exact Or.inl (by omega)

/-- Selecting the compression then writing two blobs preserves the
uuid-freshness invariant of the attachment store. -/
theorem write_two_wf (a : AttachmentStore) (hwf : a.Wf)
    (c1 c2 : BlobContent) (t1 t2 : FileContentType) :
    (((a.Write c1 t1).2.Write c2 t2).2).Wf := by
  intro b hb
  simp only [AttachmentStore.Write] at hb ⊢
  simp only [List.mem_append, List.mem_singleton] at hb
  rcases hb with (hb | hb) | hb
  · have := hwf b hb
    omega
  · subst hb
    show a.nextUuid < a.nextUuid + 1 + 1
    omega
  · subst hb
    show a.nextUuid + 1 < a.nextUuid + 1 + 1
    omega

/-- `runFilters` accepts when every registered filter accepts. -/
theorem runFilters_all_accept (listeners : List ServerListener)
    (simplified : SimplifiedObject) (aet : String)
    (h : ∀ l ∈ listeners,
      l.FilterIncomingInstance simplified aet = FilterOutcome.returns true) :
    runFilters listeners simplified aet = Except.ok true := by
  induction listeners with
  | nil => rfl
  | cons l rest ih =>
      rw [runFilters, h l (List.mem_cons_self l rest)]
      exact ih (fun l' h' => h l' (List.mem_cons_of_mem l h'))

/-- `runFilters` rejects when some registered filter returns false and no
filter throws. -/
theorem runFilters_rejects (listeners : List ServerListener)
    (simplified : SimplifiedObject) (aet : String)
    (hret : ∀ l ∈ listeners,
      (l.FilterIncomingInstance simplified aet).isReturn = true)
    (hrej : ∃ l ∈ listeners,
      l.FilterIncomingInstance simplified aet = FilterOutcome.returns false) :
    runFilters listeners simplified aet = Except.ok false := by
  induction listeners with
  | nil =>
      obtain ⟨l, hl, -⟩ := hrej
      exact absurd hl (List.not_mem_nil l)
  | cons l rest ih =>
      cases hout : l.FilterIncomingInstance simplified aet with
      | returns b =>
          cases b with
          | false => simp [runFilters, hout]
          | true =>
              obtain ⟨l', hl', hrej'⟩ := hrej
              rcases List.mem_cons.mp hl' with rfl | hl'
              · rw [hout] at hrej'
                exact absurd hrej' (by simp)
              · have hrec := ih
                  (fun x hx => hret x (List.mem_cons_of_mem l hx))
                  ⟨l', hl', hrej'⟩
                simp [runFilters, hout, hrec]
      | raiseOrthanc m =>
          have := hret l (List.mem_cons_self l rest)
          rw [hout] at this
          exact absurd this (by simp [FilterOutcome.isReturn])
      | raiseOther m =>
          have := hret l (List.mem_cons_self l rest)
          rw [hout] at this
          exact absurd this (by simp [FilterOutcome.isReturn])

/-- When no on-stored callback throws a non-`OrthancException`, the
notification pass completes and invokes every listener in order. -/
theorem notifyStored_total (listeners : List ServerListener) (pid : String)
    (dicom : DicomInstanceToStore) (simplified : SimplifiedObject)
    (h : ∀ l ∈ listeners,
      (l.SignalStoredInstance pid dicom simplified).escapes = false) :
    notifyStored listeners pid dicom simplified =
      Except.ok (listeners.map (fun l => (l.description, pid))) := by
  induction listeners with
  | nil => rfl
  | cons l rest ih =>
      have hrest := ih (fun x hx => h x (List.mem_cons_of_mem l hx))
      cases hout : l.SignalStoredInstance pid dicom simplified with
      | ok => simp [notifyStored, hout, hrest, Except.map]
      | raiseOrthanc m => simp [notifyStored, hout, hrest, Except.map]
      | raiseOther m =>
          have := h l (List.mem_cons_self l rest)
          rw [hout] at this
          exact absurd this (by simp [CallbackOutcome.escapes])

/-- A completed notification pass always invoked every listener, in
registration order, with the given public id — `OrthancException`s from
individual callbacks included, since they are swallowed. -/
theorem notifyStored_ok_log (listeners : List ServerListener) (pid : String)
    (dicom : DicomInstanceToStore) (simplified : SimplifiedObject)
    (log : List (String × String))
    (h : notifyStored listeners pid dicom simplified = Except.ok log) :
    log = listeners.map (fun l => (l.description, pid)) := by
  induction listeners generalizing log with
  | nil =>
      rw [notifyStored] at h
      simpa using (Except.ok.inj h).symm
  | cons l rest ih =>
      cases hout : l.SignalStoredInstance pid dicom simplified with
      | ok =>
          rw [notifyStored, hout] at h
          cases hrest : notifyStored rest pid dicom simplified with
          | error m => rw [hrest] at h; exact absurd h (by simp [Except.map])
          | ok log' =>
              rw [hrest] at h
              simp only [Except.map] at h
              rw [← Except.ok.inj h, ih log' hrest]
              simp
      | raiseOrthanc m =>
          rw [notifyStored, hout] at h
          cases hrest : notifyStored rest pid dicom simplified with
          | error m' => rw [hrest] at h; exact absurd h (by simp [Except.map])
          | ok log' =>
              rw [hrest] at h
              simp only [Except.map] at h
              rw [← Except.ok.inj h, ih log' hrest]
              simp
      | raiseOther m =>
          rw [notifyStored, hout] at h
          exact absurd h (by simp)

/-- The accepted store path preserves the attachment-store contents
whenever the index transaction's status is not Success: the two blobs it
wrote are removed again before returning. -/
theorem storeAccepted_non_success_blobs (indexStore : IndexStoreFn)
    (st : ServerContextState) (dicom : DicomInstanceToStore)
    (pid : String) (simplified : SimplifiedObject) (r : StoreResult)
    (hwf : st.accessor.Wf)
    (hok : storeAccepted indexStore st dicom pid simplified = Except.ok r)
    (hns : r.status ≠ StoreStatus.success) :
    r.state.accessor.blobs = st.accessor.blobs := by
  simp only [storeAccepted] at hok
  split at hok
  · split at hok
    · exact absurd hok (by simp)
    · replace hok := Except.ok.inj hok
      subst hok
      simp only at hns ⊢
      rw [if_pos hns]
      exact write_two_remove_two
        (st.accessor.SetCompressionForNextOperations
          (if st.compressionEnabled then CompressionType.zlib
           else CompressionType.noCompression)) hwf
        (BlobContent.bytes dicom.buffer) (BlobContent.jsonText dicom.json)
  · replace hok := Except.ok.inj hok
    subst hok
    simp only at hns ⊢
    rw [if_pos hns]
    exact write_two_remove_two
      (st.accessor.SetCompressionForNextOperations
        (if st.compressionEnabled then CompressionType.zlib
         else CompressionType.noCompression)) hwf
      (BlobContent.bytes dicom.buffer) (BlobContent.jsonText dicom.json)

/-- C2: whenever `ServerContext::Store` completes with a status other
than Success — AlreadyStored, Failure, or a rejection that never reached
the index — the attachment store's contents are exactly what they were
before the call: the two blobs written in step 3 are removed again
before `Store` returns, so no orphan blobs are left behind.  This holds
for every index transaction `indexStore`. -/
theorem store_non_success_removes_blobs (env : Env) (indexStore : IndexStoreFn)
    (st : ServerContextState) (dicom : DicomInstanceToStore) (r : StoreResult)
    (hwf : st.accessor.Wf)
    (hok : ServerContext.Store env indexStore st dicom = Except.ok r)
    (hns : r.status ≠ StoreStatus.success) :
    r.state.accessor.blobs = st.accessor.blobs := by
  simp only [ServerContext.Store] at hok
  split at hok
  · exact absurd hok (by simp)
  · split at hok
    · replace hok := Except.ok.inj hok
      subst hok
      rfl
    · exact storeAccepted_non_success_blobs indexStore st dicom _ _ r hwf hok hns

/-- Witness for C2: storing into an empty context through an
always-failing index transaction leaves the attachment store's contents
unchanged. -/
theorem store_non_success_removes_blobs_witness :
    storeFailResult.state.accessor.blobs = stW.accessor.blobs :=
  store_non_success_removes_blobs envW failingIndexStore stW dicomW
    storeFailResult (fun b hb => absurd hb (List.not_mem_nil b)) rfl
    (by decide)

/-- C3: when the admission filters run without throwing and some
registered listener's `FilterIncomingInstance` returns false,
`ServerContext::Store` returns `FilteredOut` with the context state
untouched: the filter pass strictly precedes the blob writes and the
index transaction, so neither the attachment store nor the index is
changed, for every index transaction `indexStore`. -/
theorem store_filter_rejection_filtered_out (env : Env)
    (indexStore : IndexStoreFn) (st : ServerContextState)
    (dicom : DicomInstanceToStore)
    (hret : ∀ l ∈ st.listeners,
      (l.FilterIncomingInstance (SimplifyTags dicom.json)
        dicom.remoteAet).isReturn = true)
    (hrej : ∃ l ∈ st.listeners,
      l.FilterIncomingInstance (SimplifyTags dicom.json) dicom.remoteAet
        = FilterOutcome.returns false) :
    ServerContext.Store env indexStore st dicom =
      Except.ok ⟨StoreStatus.filteredOut, env.hashInstance dicom.summary,
        st, [], dicom.metadata⟩ := by
  have hf := runFilters_rejects st.listeners (SimplifyTags dicom.json)
    dicom.remoteAet hret hrej
  simp [ServerContext.Store, hf]

/-- Witness for C3: a rejecting filter makes the store return
`FilteredOut` and leaves the state exactly as it was. -/
theorem store_filter_rejection_filtered_out_witness :
    ServerContext.Store envW failingIndexStore st3W dicomW =
      Except.ok ⟨StoreStatus.filteredOut, "id0", st3W, [], []⟩ :=
  store_filter_rejection_filtered_out envW failingIndexStore st3W dicomW
    (by decide) (by decide)

/-- The accepted store path, when it completes with Success or
AlreadyStored, reports the given public id and one `SignalStoredInstance`
invocation per registered listener, in registration order — listeners
whose callback threw an `OrthancException` included. -/
theorem storeAccepted_notifications (indexStore : IndexStoreFn)
    (st : ServerContextState) (dicom : DicomInstanceToStore)
    (pid : String) (simplified : SimplifiedObject) (r : StoreResult)
    (hok : storeAccepted indexStore st dicom pid simplified = Except.ok r)
    (hs : r.status = StoreStatus.success ∨
          r.status = StoreStatus.alreadyStored) :
    r.publicId = pid ∧
    r.storedEvents = st.listeners.map (fun l => (l.description, pid)) := by
  simp only [storeAccepted] at hok
  split at hok
  · cases hn : notifyStored st.listeners pid dicom simplified with
    | error m =>
        rw [hn] at hok
        exact absurd hok (by simp)
    | ok log =>
        rw [hn] at hok
        replace hok := Except.ok.inj hok
        subst hok
        exact ⟨rfl, notifyStored_ok_log st.listeners pid dicom simplified log hn⟩
  · replace hok := Except.ok.inj hok
    subst hok
    next hcond => exact absurd hs hcond

/-- C9: whenever `ServerContext::Store` returns Success or AlreadyStored
— so for freshly stored and duplicate instances alike — every registered
listener's `SignalStoredInstance` was invoked with the computed public id
before `Store` returned, in registration order, and an `OrthancException`
thrown by one callback does not prevent the invocation of the remaining
listeners. -/
theorem store_notifies_all_listeners (env : Env) (indexStore : IndexStoreFn)
    (st : ServerContextState) (dicom : DicomInstanceToStore) (r : StoreResult)
    (hok : ServerContext.Store env indexStore st dicom = Except.ok r)
    (hs : r.status = StoreStatus.success ∨
          r.status = StoreStatus.alreadyStored) :
    r.publicId = env.hashInstance dicom.summary ∧
    r.storedEvents = st.listeners.map (fun l => (l.description, r.publicId)) := by
  simp only [ServerContext.Store] at hok
  split at hok
  · exact absurd hok (by simp)
  · split at hok
    · replace hok := Except.ok.inj hok
      subst hok
      rcases hs with h | h <;> simp at h
    · obtain ⟨h1, h2⟩ := storeAccepted_notifications indexStore st dicom _ _ r
        hok hs
      refine ⟨h1, ?_⟩
      rw [h1, h2]

/-- Witness for C9: with one listener whose on-stored callback throws an
`OrthancException` followed by a healthy one, a successful store invokes
both with the computed id. -/
theorem store_notifies_all_listeners_witness :
    store9Result.publicId = "id0" ∧
    store9Result.storedEvents = [("A", "id0"), ("Lua", "id0")] := by
  have h := store_notifies_all_listeners envW (ServerIndex.store envW) st9W
    dicomW store9Result rfl (Or.inl rfl)
  exact ⟨h.1, h.2⟩

/-- C1: storing the same DICOM bytes (same tag summary) twice: given the
first call returned (Success, id) — the id being computed
deterministically from the tag summary by the hasher, before the index
is consulted — a completed second call on the resulting state returns
(AlreadyStored, id) with the same public id, leaves the attachment
store's contents exactly as the first call left them (the two blobs it
wrote are removed before returning), and leaves the index unchanged. -/
theorem store_idempotent_second_already_stored (env : Env)
    (st : ServerContextState) (dicom : DicomInstanceToStore) (r1 r2 : StoreResult)
    (hwf : st.accessor.Wf)
    (h1 : ServerContext.Store env (ServerIndex.store env) st dicom = Except.ok r1)
    (hs1 : r1.status = StoreStatus.success)
    (h2 : ServerContext.Store env (ServerIndex.store env) r1.state dicom = Except.ok r2) :
    r2.status = StoreStatus.alreadyStored ∧
    r2.publicId = r1.publicId ∧
    r1.publicId = env.hashInstance dicom.summary ∧
    r2.state.accessor.blobs = r1.state.accessor.blobs ∧
    r2.state.index = r1.state.index := by
  simp only [ServerContext.Store] at h1
  split at h1
  · exact absurd h1 (by simp)
  · next accepted heqf =>
    split at h1
    · replace h1 := Except.ok.inj h1
      subst h1
      simp at hs1
    · next hacc =>
      cases accepted with
      | false => exact absurd rfl hacc
      | true =>
      simp only [storeAccepted, ServerIndex.store] at h1
      split at h1
      · -- the id is already present: the first call cannot return Success
        split at h1
        · cases hn : notifyStored st.listeners (env.hashInstance dicom.summary)
              dicom (SimplifyTags dicom.json) with
          | error m => rw [hn] at h1; exact absurd h1 (by simp)
          | ok log =>
              rw [hn] at h1
              replace h1 := Except.ok.inj h1
              subst h1
              simp at hs1
        · next hcond => exact absurd (Or.inr rfl) hcond
      · next hfresh =>
        split at h1
        · cases hn : notifyStored st.listeners (env.hashInstance dicom.summary)
              dicom (SimplifyTags dicom.json) with
          | error m => rw [hn] at h1; exact absurd h1 (by simp)
          | ok log =>
              rw [hn] at h1
              replace h1 := Except.ok.inj h1
              subst h1
              -- now invert the second call
              simp only [ServerContext.Store] at h2
              rw [heqf] at h2
              have h2x : storeAccepted (ServerIndex.store env) _ dicom
                  (env.hashInstance dicom.summary) (SimplifyTags dicom.json)
                  = Except.ok r2 := h2
              simp only [storeAccepted, ServerIndex.store] at h2x
              split at h2x
              · -- duplicate id found: AlreadyStored path
                split at h2x
                · rw [hn] at h2x
                  replace h2x := Except.ok.inj h2x
                  subst h2x
                  refine ⟨rfl, rfl, rfl, ?_, rfl⟩
                  split
                  · exact write_two_remove_two _
                      (write_two_wf (st.accessor.SetCompressionForNextOperations
                        (compressionFor st.compressionEnabled)) hwf
                        (BlobContent.bytes dicom.buffer)
                        (BlobContent.jsonText dicom.json)
                        FileContentType.dicom FileContentType.dicomAsJson)
                      (BlobContent.bytes dicom.buffer)
                      (BlobContent.jsonText dicom.json)
                  · next hss => exact absurd (by simp) hss
                · next hcond => exact absurd (Or.inr rfl) hcond
              · next hdup =>
                exact absurd (by simp) hdup
        · next hcond => exact absurd (Or.inl rfl) hcond

/-- Witness for C1: concretely storing `dicomW` twice into the empty
context yields Success then AlreadyStored with the same id, no new
attachments and no index change. -/
theorem store_idempotent_second_already_stored_witness :
    storeSecondResult.status = StoreStatus.alreadyStored ∧
    storeSecondResult.publicId = storeFirstResult.publicId ∧
    storeFirstResult.publicId = envW.hashInstance dicomW.summary ∧
    storeSecondResult.state.accessor.blobs
      = storeFirstResult.state.accessor.blobs ∧
    storeSecondResult.state.index = storeFirstResult.state.index :=
  store_idempotent_second_already_stored envW stW dicomW storeFirstResult
    storeSecondResult (fun b hb => absurd hb (List.not_mem_nil b)) rfl rfl rfl

end Orthanc
